import Mathlib

set_option autoImplicit false

namespace server

/-- Integer 3D world position. World coordinates are modeled as integers:
every position the claims exercise lies in `[-2001, 2001]`, a range on which
`f32` represents integers exactly, `std::lround` is the identity, and the
`float` to `s16` conversion is the identity. -/
structure V3f where
  x : ℤ
  y : ℤ
  z : ℤ
deriving DecidableEq, Repr

/-- Cell coordinate triple: the `SpatialKey` struct of `spatial_map.h`.
The zeroed padding field is omitted; equality is over the triple alone. -/
structure SpatialKey where
  x : ℤ
  y : ℤ
  z : ℤ
deriving DecidableEq, Repr

/-- Conversion of one world coordinate to a cell coordinate as performed by
the shrinking `SpatialKey(s16,s16,s16)` constructor: the coordinate
(already truncated to `s16`, identity on the modeled integer range) is
arithmetically shifted right by 4, i.e. floor-divided by 16. -/
def worldToCell (v : ℤ) : ℤ := Int.fdiv v 16

/-- `SpatialKey` built from a world position: `SpatialKey(const v3f &)`,
which applies the shrinking constructor to each component. -/
def SpatialKey.fromWorld (p : V3f) : SpatialKey :=
  ⟨worldToCell p.x, worldToCell p.y, worldToCell p.z⟩

/-- The `absoluteRoundUp` lambda inside `SpatialMap::getRelevantObjectIds`:
`std::lround` the coordinate (identity on the integer model), set a 0/1
`remainder` flag from `(rounded & 0xF) != 0` (the low four bits, i.e.
`rounded.emod 16 ≠ 0`), then add the flag to `rounded >> 4` with the sign
of `rounded` (divide by 16 and round the remainder away from zero). -/
def absoluteRoundUp (v : ℤ) : ℤ :=
  let rounded : ℤ := v
  let remainder : ℤ := if rounded.emod 16 = 0 then 0 else 1
  Int.fdiv rounded 16 + (if rounded < 0 then -remainder else remainder)

/-- Cell formula exactly as the claim (and spec §4.1) words it, kept as a
separate definition so it can be compared with the source functions:
round-nearest to an integer `r` (identity on the integer model), arithmetic
right-shift by 4, bias by `-1` when `r < 0` with non-zero remainder mod 16
and by `+1` when `r ≥ 0` with non-zero remainder. -/
def specClaimCell (v : ℤ) : ℤ :=
  if v.emod 16 = 0 then Int.fdiv v 16
  else if v < 0 then Int.fdiv v 16 - 1
  else Int.fdiv v 16 + 1

/-- Contents of `SpatialMap::m_cached`, the `unordered_multimap` from cell
key to object id. The container is modeled as a list of entries in
insertion order; the map interface only ever erases the first matching
entry of a bucket, which the list model mirrors. -/
abbrev Cached := List (SpatialKey × ℕ)

namespace SpatialMap

/-- `SpatialMap::insert(u16, const v3f &)`: the entry goes straight into
the multimap, with no duplicate check of any kind. -/
def insert (id : ℕ) (pos : V3f) (m : Cached) : Cached :=
  m ++ [(SpatialKey.fromWorld pos, id)]

/-- `SpatialMap::remove(u16 id)`: linear scan, erase the first entry
carrying `id`, leave early. -/
def removeById (id : ℕ) (m : Cached) : Cached :=
  m.eraseP (fun e => decide (e.2 = id))

/-- `SpatialMap::remove(u16 id, const v3f &pos)`: if the bucket of `pos`
exists and holds an entry for `id`, erase (the first) one and return;
otherwise fall through to the by-id scan `remove(id)`. -/
def remove (id : ℕ) (pos : V3f) (m : Cached) : Cached :=
  let key := SpatialKey.fromWorld pos
  if m.any (fun e => decide (e.1 = key)) then
    if m.any (fun e => decide (e.1 = key ∧ e.2 = id)) then
      m.eraseP (fun e => decide (e.1 = key ∧ e.2 = id))
    else
      removeById id m
  else
    removeById id m

/-- `SpatialMap::removeAll()`: clear the multimap. -/
def removeAll (_m : Cached) : Cached := []

/-- `SpatialMap::updatePosition(u16, const v3f &, const v3f &)`: leave
early if an entry for `id` already sits in the bucket of `newPos`;
otherwise erase the first entry for `id` in the bucket of `oldPos` (if
any) and insert `(cell(newPos), id)`. -/
def updatePosition (id : ℕ) (oldPos newPos : V3f) (m : Cached) : Cached :=
  if m.any (fun e => decide (e.1 = SpatialKey.fromWorld newPos ∧ e.2 = id)) then
    m
  else
    insert id newPos
      (m.eraseP (fun e => decide (e.1 = SpatialKey.fromWorld oldPos ∧ e.2 = id)))

end SpatialMap

/-- Half-open integer interval `[a, b)` as a list, in increasing order:
the iteration space of one `for (s16 v = a; v < b; v++)` loop. -/
def intRange (a b : ℤ) : List ℤ :=
  (List.range (b - a).toNat).map (fun (i : ℕ) => a + (i : ℤ))

/-- Axis-aligned box with inclusive edges (`core::aabbox3d<f32>`). -/
structure Aabb3f where
  minEdge : V3f
  maxEdge : V3f
deriving DecidableEq, Repr

/-- Modelled from the spec: the math collaborator's
`AABB3f.contains(point)` (`isPointInside` in the source's callers), with
both edges inclusive. -/
def Aabb3f.contains (b : Aabb3f) (p : V3f) : Bool :=
  decide (b.minEdge.x ≤ p.x ∧ p.x ≤ b.maxEdge.x ∧
          b.minEdge.y ≤ p.y ∧ p.y ≤ b.maxEdge.y ∧
          b.minEdge.z ≤ p.z ∧ p.z ≤ b.maxEdge.z)

/-- Lower cell corner of a query box: `absoluteRoundUp` on each component
of `box.MinEdge`, as in `SpatialMap::getRelevantObjectIds`. -/
def minCell (box : Aabb3f) : SpatialKey :=
  ⟨absoluteRoundUp box.minEdge.x, absoluteRoundUp box.minEdge.y, absoluteRoundUp box.minEdge.z⟩

/-- Upper cell corner of a query box: `absoluteRoundUp` on each component
of `box.MaxEdge`. -/
def maxCell (box : Aabb3f) : SpatialKey :=
  ⟨absoluteRoundUp box.maxEdge.x, absoluteRoundUp box.maxEdge.y, absoluteRoundUp box.maxEdge.z⟩

/-- `number_of_mapblocks_to_check`: the product of the absolute
componentwise differences of the two cell corners. -/
def cellCount (box : Aabb3f) : ℕ :=
  ((maxCell box).x - (minCell box).x).natAbs *
  ((maxCell box).y - (minCell box).y).natAbs *
  ((maxCell box).z - (minCell box).z).natAbs

/-- Cells visited by the triple `for` loop, in loop order: `x` outermost,
then `y`, then `z`, each over the half-open range `[min, max)`. -/
def cellList (kmin kmax : SpatialKey) : List SpatialKey :=
  (intRange kmin.x kmax.x).flatMap (fun x =>
    (intRange kmin.y kmax.y).flatMap (fun y =>
      (intRange kmin.z kmax.z).map (fun z => ⟨x, y, z⟩)))

/-- Emission of the cell-walk branch of `SpatialMap::getRelevantObjectIds`
with a callback that only records ids: for each cell of the walked range in
loop order, the ids of the bucket's entries (`find` + `equal_range`) in
container order. -/
def cellWalkIds (kmin kmax : SpatialKey) (m : Cached) : List ℕ :=
  (cellList kmin kmax).flatMap (fun k =>
    (m.filter (fun e => decide (e.1 = k))).map (fun e => e.2))

/-- `SpatialMap::getRelevantObjectIds` with a pure callback, returning the
list of ids passed to the callback in emission order: nothing on an empty
map; the cell-walk when the number of cells to check is at most the map
size; otherwise a linear scan emitting every id. -/
def getRelevantObjectIds (box : Aabb3f) (m : Cached) : List ℕ :=
  if m.isEmpty then []
  else if cellCount box ≤ m.length then cellWalkIds (minCell box) (maxCell box) m
  else m.map (fun e => e.2)

/-- Modelled from the claim's words (for comparison with the source): the
radius query's candidate emission as claim C9 describes it, with the
cell-walk taken when the cell count is at most the map size plus an
additive slack of 100. -/
def specRadiusRelevantIds (box : Aabb3f) (m : Cached) : List ℕ :=
  if m.isEmpty then []
  else if cellCount box ≤ m.length + 100 then cellWalkIds (minCell box) (maxCell box) m
  else m.map (fun e => e.2)

/-- Decidable membership of a cell in the half-open cell range walked by
the query loops. -/
def inCellRange (kmin kmax k : SpatialKey) : Bool :=
  decide (kmin.x ≤ k.x ∧ k.x < kmax.x ∧ kmin.y ≤ k.y ∧ k.y < kmax.y ∧
          kmin.z ≤ k.z ∧ k.z < kmax.z)

/-- Server-side active object, reduced to the fields the claims exercise:
its id and its base position. -/
structure ServerActiveObject where
  id : ℕ
  pos : V3f
deriving DecidableEq, Repr

/-- Modelled from the spec: the `ObjectStore` (`m_active_objects`; its
implementation lives outside `src/`), an id-to-object table with stable
iteration, modeled as an association list in insertion order. -/
abbrev ObjectStore := List (ℕ × ServerActiveObject)

/-- Modelled from the spec: `ObjectStore.get(id)`, a non-owning borrow,
`none` if absent. -/
def storeGet (id : ℕ) (objs : ObjectStore) : Option ServerActiveObject :=
  (objs.find? (fun e => decide (e.1 = id))).map (fun e => e.2)

/-- Modelled from the spec: `isFree(id)` of the id allocator. Id `0` is
reserved as "none" and an id bound in the store is not free. -/
def isFreeId (id : ℕ) (objs : ObjectStore) : Bool :=
  decide (id ≠ 0) && !(objs.any (fun e => decide (e.1 = id)))

/-- Modelled from the spec: search loop of the id allocator, ascending
from `i` with the remaining ids to try as fuel. -/
def getFreeIdAux (objs : ObjectStore) : ℕ → ℕ → ℕ
  | _, 0 => 0
  | i, fuel + 1 => if isFreeId i objs then i else getFreeIdAux objs (i + 1) fuel

/-- Modelled from the spec: `nextFreeId()` — issue a free id, or return
`0` when the 16-bit id space (65535 usable ids) is exhausted. -/
def getFreeId (objs : ObjectStore) : ℕ := getFreeIdAux objs 1 65535

/-- State of `server::ActiveObjectMgr`: the object store
(`m_active_objects`) and the spatial index (`m_spatial_map.m_cached`). -/
structure MgrState where
  objects : ObjectStore
  cached : Cached
deriving DecidableEq, Repr

/-- `ActiveObjectMgr::registerObject`, parameterised by the external world
limit predicate `objectpos_over_limit` (spec §6): allocate when the id is
0 and fail on exhaustion; fail when the (possibly freshly assigned) id is
not free; fail when the position is over the world limit; otherwise insert
into the spatial map and the store and return `true`. -/
def registerObject (lim : V3f → Bool) (obj : ServerActiveObject) (st : MgrState) :
    Bool × MgrState :=
  if obj.id = 0 ∧ getFreeId st.objects = 0 then (false, st)
  else if isFreeId (if obj.id = 0 then getFreeId st.objects else obj.id) st.objects = false then
    (false, st)
  else if lim obj.pos then (false, st)
  else
    (true, { objects := st.objects ++
               [(if obj.id = 0 then getFreeId st.objects else obj.id,
                 { obj with id := if obj.id = 0 then getFreeId st.objects else obj.id })],
             cached := SpatialMap.insert (if obj.id = 0 then getFreeId st.objects else obj.id)
               obj.pos st.cached })

/-- Id under which `registerObject` files the object: freshly allocated
when the supplied id is 0, the supplied id otherwise. -/
def regAssignedId (obj : ServerActiveObject) (st : MgrState) : ℕ :=
  if obj.id = 0 then getFreeId st.objects else obj.id

/-- `ActiveObjectMgr::removeObject(u16 id)`: the source reads
`m_active_objects.get(id).get()->getBasePosition()` unconditionally before
any presence check, so an unknown id dereferences a null handle; the
failure is modeled as `none`. On a known id it removes the cell-targeted
spatial entry and then the store entry (the not-found info log branch is
unreachable in that case). -/
def removeObject (id : ℕ) (st : MgrState) : Option MgrState :=
  match storeGet id st.objects with
  | none => none
  | some obj =>
    some { objects := st.objects.eraseP (fun e => decide (e.1 = id)),
           cached := SpatialMap.remove id obj.pos st.cached }

/-- `ActiveObjectMgr::clearIf`: iterate the store snapshot and, for each
entry satisfying the predicate, remove that id from the store. The
spatial map is not touched. -/
def clearIf (p : ServerActiveObject → ℕ → Bool) (st : MgrState) : MgrState :=
  { st with
    objects := st.objects.foldl
      (fun acc e => if p e.2 e.1 then acc.eraseP (fun x => decide (x.1 = e.1)) else acc)
      st.objects }

/-- `ActiveObjectMgr::updateObjectPosition`: delegate to
`SpatialMap::updatePosition`. -/
def updateObjectPosition (id : ℕ) (lastPos newPos : V3f) (st : MgrState) : MgrState :=
  { st with cached := SpatialMap.updatePosition id lastPos newPos st.cached }

/-- Traversal state: the manager state threaded through the query
callbacks plus the objects collected into the caller's `result` vector. -/
abbrev TravState := MgrState × List ServerActiveObject

/-- Fold one query callback over a list of candidate ids. -/
def walkIds (f : ℕ → TravState → TravState) (ids : List ℕ) (p : TravState) : TravState :=
  ids.foldl (fun q id => f id q) p

/-- Cell-walk branch with a stateful callback: for each cell of the range
in loop order, the bucket lookup (`m_cached.find` + `equal_range`) runs
against the current, live `cached` of the threaded state, and the callback
is folded over the ids found there. -/
def walkCells (f : ℕ → TravState → TravState) (cells : List SpatialKey) (p : TravState) :
    TravState :=
  cells.foldl (fun q k =>
    walkIds f ((q.1.cached.filter (fun e => decide (e.1 = k))).map (fun e => e.2)) q) p

/-- `SpatialMap::getRelevantObjectIds` with a stateful callback: nothing
on an empty map, the branch between cell-walk and linear scan decided from
the state at entry; the scan branch folds the callback over the entry
snapshot of `cached`. -/
def getRelevantObjectIdsM (box : Aabb3f) (f : ℕ → TravState → TravState) (st : MgrState) :
    TravState :=
  if st.cached.isEmpty then (st, [])
  else if cellCount box ≤ st.cached.length then
    walkCells f (cellList (minCell box) (maxCell box)) (st, [])
  else
    walkIds f (st.cached.map (fun e => e.2)) (st, [])

/-- Modelled from the spec (§4.2.1 deferred-mutation protocol), for
comparison with the source: the same cell-walk except that every cell's
candidates are read from `cached0`, the `cached` state frozen at query
entry, as the claimed freeze of `cached` during a traversal prescribes. -/
def walkCellsFrozen (f : ℕ → TravState → TravState) (cached0 : Cached)
    (cells : List SpatialKey) (p : TravState) : TravState :=
  cells.foldl (fun q k =>
    walkIds f ((cached0.filter (fun e => decide (e.1 = k))).map (fun e => e.2)) q) p

/-- Modelled from the spec: the traversal as the deferral claim describes
it, observing the `cached` state frozen at query entry. -/
def specFrozenRelevantM (box : Aabb3f) (f : ℕ → TravState → TravState) (st : MgrState) :
    TravState :=
  if st.cached.isEmpty then (st, [])
  else if cellCount box ≤ st.cached.length then
    walkCellsFrozen f st.cached (cellList (minCell box) (maxCell box)) (st, [])
  else
    walkIds f (st.cached.map (fun e => e.2)) (st, [])

/-- The per-id callback body of `ActiveObjectMgr::getObjectsInArea`:
resolve the id in the store; a missing object triggers the silent
self-heal `m_spatial_map.remove(id)`, applied to the live `cached` of the
threaded state; otherwise filter by the exact box test, then consult the
caller's `include_obj_cb`, then push the object. -/
def areaStep (box : Aabb3f) (cb : ServerActiveObject → MgrState → Bool × MgrState)
    (id : ℕ) (p : TravState) : TravState :=
  match storeGet id p.1.objects with
  | none => ({ p.1 with cached := SpatialMap.removeById id p.1.cached }, p.2)
  | some obj =>
    if Aabb3f.contains box obj.pos then
      let r := cb obj p.1
      (r.2, if r.1 then p.2 ++ [obj] else p.2)
    else p

/-- `ActiveObjectMgr::getObjectsInArea`. -/
def getObjectsInArea (box : Aabb3f) (cb : ServerActiveObject → MgrState → Bool × MgrState)
    (st : MgrState) : TravState :=
  getRelevantObjectIdsM box (areaStep box cb) st

/-- Modelled from the spec: `getObjectsInArea` under the claimed frozen
observation of `cached`. -/
def specFrozenObjectsInArea (box : Aabb3f)
    (cb : ServerActiveObject → MgrState → Bool × MgrState) (st : MgrState) : TravState :=
  specFrozenRelevantM box (areaStep box cb) st

/-- Squared euclidean distance (`getDistanceFromSQ`), exact on the
integer model. -/
def distSq (p q : V3f) : ℤ :=
  (p.x - q.x) * (p.x - q.x) + (p.y - q.y) * (p.y - q.y) + (p.z - q.z) * (p.z - q.z)

/-- Axis-aligned bounding box of the query sphere, as built at the top of
`ActiveObjectMgr::getObjectsInsideRadius`. -/
def sphereBounds (c : V3f) (r : ℤ) : Aabb3f :=
  ⟨⟨c.x - r, c.y - r, c.z - r⟩, ⟨c.x + r, c.y + r, c.z + r⟩⟩

/-- The per-id callback body of `ActiveObjectMgr::getObjectsInsideRadius`:
self-heal on a missing object, exact squared-radius filter, caller
predicate, push. -/
def radiusStep (center : V3f) (r : ℤ)
    (cb : ServerActiveObject → MgrState → Bool × MgrState) (id : ℕ) (p : TravState) :
    TravState :=
  match storeGet id p.1.objects with
  | none => ({ p.1 with cached := SpatialMap.removeById id p.1.cached }, p.2)
  | some obj =>
    if distSq obj.pos center ≤ r * r then
      let q := cb obj p.1
      (q.2, if q.1 then p.2 ++ [obj] else p.2)
    else p

/-- `ActiveObjectMgr::getObjectsInsideRadius`: delegates candidate
generation to the very same `getRelevantObjectIds` over the sphere's
bounding box. -/
def getObjectsInsideRadius (center : V3f) (r : ℤ)
    (cb : ServerActiveObject → MgrState → Bool × MgrState) (st : MgrState) : TravState :=
  getRelevantObjectIdsM (sphereBounds center r) (radiusStep center r cb) st

/-- Null `include_obj_cb`: every resolved object is included and the
manager state is untouched. -/
def cbTrue : ServerActiveObject → MgrState → Bool × MgrState := fun _ st => (true, st)

/-- Lift a pure include predicate to a (non-mutating) callback. -/
def liftPure (p : ServerActiveObject → Bool) :
    ServerActiveObject → MgrState → Bool × MgrState :=
  fun o st => (p o, st)

/-- Invariant 2 of spec §3: every id in `cached` is bound in the store. -/
def Consistent (st : MgrState) : Prop :=
  ∀ e ∈ st.cached, (storeGet e.2 st.objects).isSome = true

/-- Callback used by the reentrancy counterexample: when it is shown the
object with id 1, it registers a fresh object with id 2 at world position
`(17, 2, 2)` (cell `(1, 0, 0)`) through the public `registerObject`, as
the spec's callback-mutation rules (§4.4.2) permit. -/
def cbRegisterOnOne : ServerActiveObject → MgrState → Bool × MgrState :=
  fun o st =>
    if o.id = 1 then (true, (registerObject (fun _ => false) ⟨2, ⟨17, 2, 2⟩⟩ st).2)
    else (true, st)

theorem mem_intRange {a b v : ℤ} : v ∈ intRange a b ↔ a ≤ v ∧ v < b := by
  simp only [intRange, List.mem_map, List.mem_range]
  constructor
  · rintro ⟨i, hi, rfl⟩
    omega
  · rintro ⟨h1, h2⟩
    exact ⟨(v - a).toNat, by omega, by omega⟩

theorem nodup_intRange {a b : ℤ} : (intRange a b).Nodup := by
  have h : Function.Injective (fun (i : ℕ) => a + (i : ℤ)) := by
    intro i j hij
    simp only at hij
    omega
  exact (List.nodup_range _).map h

theorem mem_cellList {kmin kmax k : SpatialKey} :
    k ∈ cellList kmin kmax ↔ inCellRange kmin kmax k = true := by
  simp only [cellList, List.mem_flatMap, List.mem_map, inCellRange, decide_eq_true_eq]
  constructor
  · rintro ⟨x, hx, y, hy, z, hz, rfl⟩
    rw [mem_intRange] at hx hy
    rw [mem_intRange] at hz
    exact ⟨hx.1, hx.2, hy.1, hy.2, hz.1, hz.2⟩
  · rintro ⟨h1, h2, h3, h4, h5, h6⟩
    exact ⟨k.x, mem_intRange.2 ⟨h1, h2⟩, k.y, mem_intRange.2 ⟨h3, h4⟩,
      k.z, mem_intRange.2 ⟨h5, h6⟩, rfl⟩

theorem nodup_cellList {kmin kmax : SpatialKey} : (cellList kmin kmax).Nodup := by
  rw [cellList, List.nodup_flatMap]
  refine ⟨fun x _ => ?_, ?_⟩
  · rw [List.nodup_flatMap]
    refine ⟨fun y _ => ?_, ?_⟩
    · exact nodup_intRange.map (fun z1 z2 h => congrArg SpatialKey.z h)
    · refine List.Pairwise.imp ?_ nodup_intRange
      intro y1 y2 hne
      intro k h1 h2
      simp only [List.mem_map] at h1 h2
      rcases h1 with ⟨z1, _, rfl⟩
      rcases h2 with ⟨z2, _, h⟩
      exact hne (congrArg SpatialKey.y h).symm
  · refine List.Pairwise.imp ?_ nodup_intRange
    intro x1 x2 hne
    intro k h1 h2
    simp only [List.mem_flatMap, List.mem_map] at h1 h2
    rcases h1 with ⟨y1, _, z1, _, rfl⟩
    rcases h2 with ⟨y2, _, z2, _, h⟩
    exact hne (congrArg SpatialKey.x h).symm

theorem flatMap_if_cons_perm (g : SpatialKey → Cached) (e : SpatialKey × ℕ) :
    ∀ (cells : List SpatialKey), cells.Nodup →
    (cells.flatMap (fun k => (if e.1 = k then [e] else []) ++ g k)).Perm
      ((if e.1 ∈ cells then [e] else []) ++ cells.flatMap g) := by
  intro cells
  induction cells with
  | nil => simp
  | cons k ks ih =>
    intro h
    rw [List.nodup_cons] at h
    rw [List.flatMap_cons, List.flatMap_cons]
    by_cases hk : e.1 = k
    · have hnotks : ∀ x ∈ ks, ¬(e.1 = x) := by
        intro x hx
        rw [hk]
        intro hkx
        exact h.1 (hkx ▸ hx)
      have hcongr : ks.flatMap (fun k2 => (if e.1 = k2 then [e] else []) ++ g k2)
          = ks.flatMap g := by
        refine List.flatMap_congr ?_
        intro x hx
        rw [if_neg (hnotks x hx), List.nil_append]
      rw [hcongr, if_pos hk, if_pos (by rw [hk]; exact List.mem_cons_self k ks)]
      simp
    · rw [if_neg hk, List.nil_append]
      simp only [List.mem_cons, hk, false_or]
      refine (List.Perm.append_left (g k) (ih h.2)).trans ?_
      by_cases hks : e.1 ∈ ks
      · rw [if_pos hks]
        exact List.perm_middle
      · rw [if_neg hks]
        exact List.Perm.refl _

theorem flatMap_filter_perm (m : Cached) :
    ∀ (cells : List SpatialKey), cells.Nodup →
    (cells.flatMap (fun k => m.filter (fun x => decide (x.1 = k)))).Perm
      (m.filter (fun x => decide (x.1 ∈ cells))) := by
  induction m with
  | nil =>
    intro cells _
    simp
  | cons a t ih =>
    intro cells h
    have hshape : (fun k => (a :: t).filter (fun x => decide (x.1 = k)))
        = (fun k => (if a.1 = k then [a] else []) ++ t.filter (fun x => decide (x.1 = k))) := by
      funext k
      rw [List.filter_cons]
      by_cases hak : a.1 = k
      · simp [hak]
      · simp [hak]
    rw [hshape]
    refine (flatMap_if_cons_perm _ a cells h).trans ?_
    rw [List.filter_cons]
    by_cases hac : a.1 ∈ cells
    · rw [if_pos hac]
      have hd : (decide (a.1 ∈ cells)) = true := by simp [hac]
      rw [hd]
      simp only [if_pos]
      exact (ih cells h).cons a
    · rw [if_neg hac]
      have hd : (decide (a.1 ∈ cells)) = false := by simp [hac]
      rw [hd]
      simp only [Bool.false_eq_true, if_neg, List.nil_append]
      exact ih cells h

/-- The cell-walk of a query emits, up to order, exactly the ids of the
entries whose cell lies in the walked half-open range. -/
theorem cellWalkIds_perm (kmin kmax : SpatialKey) (m : Cached) :
    (cellWalkIds kmin kmax m).Perm
      ((m.filter (fun e => inCellRange kmin kmax e.1)).map (fun e => e.2)) := by
  have h1 : cellWalkIds kmin kmax m
      = ((cellList kmin kmax).flatMap (fun k => m.filter (fun e => decide (e.1 = k)))).map
          (fun e => e.2) := by
    rw [cellWalkIds, List.map_flatMap]
  rw [h1]
  refine List.Perm.map _ ?_
  refine (flatMap_filter_perm m (cellList kmin kmax) nodup_cellList).trans ?_
  have h2 : ∀ x ∈ m, (decide (x.1 ∈ cellList kmin kmax)) = inCellRange kmin kmax x.1 := by
    intro x _
    by_cases hx : x.1 ∈ cellList kmin kmax
    · rw [mem_cellList] at hx
      simp [mem_cellList, hx]
    · have hx2 := hx
      rw [mem_cellList] at hx2
      simp only [Bool.not_eq_true] at hx2
      simp [mem_cellList, hx2]
  rw [List.filter_congr h2]

/-- The ascending allocator search returns 0 or a free id. -/
theorem getFreeIdAux_free (objs : ObjectStore) :
    ∀ (fuel i : ℕ), getFreeIdAux objs i fuel = 0 ∨
      isFreeId (getFreeIdAux objs i fuel) objs = true := by
  intro fuel
  induction fuel with
  | zero => intro i; exact Or.inl rfl
  | succ n ih =>
    intro i
    rw [getFreeIdAux]
    by_cases h : isFreeId i objs = true
    · rw [if_pos h]
      exact Or.inr h
    · rw [if_neg h]
      exact ih (i + 1)

/-- A successfully allocated id is free. -/
theorem getFreeId_free {objs : ObjectStore} (h : getFreeId objs ≠ 0) :
    isFreeId (getFreeId objs) objs = true := by
  rcases getFreeIdAux_free objs 65535 1 with h0 | h1
  · exact absurd h0 h
  · exact h1

/-- C4, counterexample. The claim asserts that the cell index computed
from a world coordinate by the `SpatialKey` construction equals the
biased round-outward formula, and that the cell computed by that formula
contains the point. At `v = 17` the `SpatialKey` cell is `1` while the
biased formula (the spec's `fromWorld`) yields `2`, and the biased cell
`2` does not contain `17` (`2 * 16 = 32 > 17`). -/
theorem C4_cell_math_counterexample :
    worldToCell 17 = 1 ∧ specClaimCell 17 = 2 ∧
      worldToCell 17 ≠ specClaimCell 17 ∧ ¬(16 * specClaimCell 17 ≤ 17) := by
  decide

/-- C4, amended. For every integer world coordinate `v` in
`[-2001, 2001]`: the insertion cell `worldToCell v` (the `SpatialKey`
constructor, an unbiased arithmetic shift) does contain the point,
`16 * cell ≤ v ≤ 16 * (cell + 1)`; and the biased round-outward formula of
the claim is computed by `absoluteRoundUp`, which the source applies only
to query-box corners, never to insertion keys. -/
theorem C4_cell_math_amended (v : ℤ) (h1 : -2001 ≤ v) (h2 : v ≤ 2001) :
    16 * worldToCell v ≤ v ∧ v ≤ 16 * (worldToCell v + 1) ∧
      absoluteRoundUp v = specClaimCell v := by
  have hf : Int.fdiv v 16 = v / 16 := Int.fdiv_eq_ediv v (by norm_num)
  refine ⟨?_, ?_, ?_⟩
  · rw [worldToCell, hf]
    omega
  · rw [worldToCell, hf]
    omega
  · simp only [absoluteRoundUp, specClaimCell, hf]
    split_ifs <;> omega

/-- C4, witness for the amended theorem at `v = 17`. -/
theorem C4_cell_math_amended_witness :
    16 * worldToCell 17 ≤ 17 ∧ absoluteRoundUp 17 = specClaimCell 17 :=
  ⟨(C4_cell_math_amended 17 (by decide) (by decide)).1,
   (C4_cell_math_amended 17 (by decide) (by decide)).2.2⟩

/-- C7, counterexample. The claim asserts `updatePosition(id, p, p)`
leaves the spatial map bitwise unchanged; on the empty map (no entry for
id 5 anywhere) the call inserts a fresh entry, so the state changes. -/
theorem C7_updatePosition_counterexample :
    SpatialMap.updatePosition 5 ⟨0, 0, 0⟩ ⟨0, 0, 0⟩ [] ≠ [] := by
  decide

/-- C7, amended. `updatePosition(id, old, new)` is a no-op precisely when
an entry for `id` is already present in the bucket of `new` (whatever the
old cell is); otherwise it erases the first entry for `id` in the bucket
of `old`, if any, and appends `(cell(new), id)`. Consequently
`updatePosition(id, p, p)` leaves the state unchanged if and only if an
entry for `id` is present in the bucket of `p`. -/
theorem C7_updatePosition_amended (id : ℕ) (m : Cached) :
    (∀ oldPos newPos : V3f,
      m.any (fun e => decide (e.1 = SpatialKey.fromWorld newPos ∧ e.2 = id)) = true →
        SpatialMap.updatePosition id oldPos newPos m = m) ∧
    (∀ p : V3f, SpatialMap.updatePosition id p p m = m ↔
      m.any (fun e => decide (e.1 = SpatialKey.fromWorld p ∧ e.2 = id)) = true) := by
  constructor
  · intro oldPos newPos h
    rw [SpatialMap.updatePosition, if_pos h]
  · intro p
    constructor
    · intro heq
      by_contra hany
      rw [SpatialMap.updatePosition, if_neg hany, SpatialMap.insert] at heq
      have hmem : (SpatialKey.fromWorld p, id) ∈ m := by
        rw [← heq]
        exact List.mem_append_right _ (List.mem_cons_self _ _)
      rw [List.any_eq_true] at hany
      exact hany ⟨(SpatialKey.fromWorld p, id), hmem, by simp⟩
    · intro h
      rw [SpatialMap.updatePosition, if_pos h]

/-- C7, witness for the amended theorem: with the entry present in the
bucket of `p`, `updatePosition(3, p, p)` is a no-op. -/
theorem C7_updatePosition_amended_witness :
    SpatialMap.updatePosition 3 ⟨0, 0, 0⟩ ⟨0, 0, 0⟩ [(⟨0, 0, 0⟩, 3)] = [(⟨0, 0, 0⟩, 3)] :=
  ((C7_updatePosition_amended 3 [(⟨0, 0, 0⟩, 3)]).2 ⟨0, 0, 0⟩).mpr (by decide)

/-- The `clearIf` iteration: folding the conditional store removal over a
snapshot whose keys are pairwise distinct filters out exactly the entries
the predicate selects. `c` is the already-visited part of the store. -/
theorem clearIf_foldl (p : ServerActiveObject → ℕ → Bool) :
    ∀ (t c : ObjectStore),
      List.Pairwise (fun a b => a.1 ≠ b.1) (c ++ t) →
      t.foldl
        (fun acc e => if p e.2 e.1 then acc.eraseP (fun x => decide (x.1 = e.1)) else acc)
        (c ++ t)
      = c ++ t.filter (fun e => !(p e.2 e.1)) := by
  intro t
  induction t with
  | nil =>
    intro c _
    simp
  | cons e t2 ih =>
    intro c h
    rw [List.foldl_cons]
    by_cases hp : p e.2 e.1 = true
    · rw [if_pos hp]
      have hc : ∀ b ∈ c, ¬((fun x => decide (x.1 = e.1)) b = true) := by
        intro b hb
        rw [List.pairwise_append] at h
        have hne := h.2.2 b hb e (List.mem_cons_self _ _)
        simp [hne]
      have herase : List.eraseP (fun x => decide (x.1 = e.1)) (e :: t2) = t2 :=
        List.eraseP_cons_of_pos (by simp)
      rw [List.eraseP_append_right _ hc, herase]
      have hsub : (c ++ t2).Sublist (c ++ e :: t2) :=
        (List.sublist_cons_self e t2).append_left c
      rw [ih c (h.sublist hsub), List.filter_cons]
      simp [hp]
    · rw [if_neg hp]
      have hre : c ++ e :: t2 = (c ++ [e]) ++ t2 := by
        rw [List.append_assoc, List.singleton_append]
      rw [hre, ih (c ++ [e]) (by rw [← hre]; exact h), List.filter_cons]
      have hpe : (!p e.2 e.1) = true := by simp [hp]
      rw [hpe]
      simp

/-- C10, confirmed. `SpatialMap::insert` performs no duplicate check:
inserting the same id at the same position twice, from any starting state,
leaves exactly two more entries `(cell(pos), id)` than before. -/
theorem C10_insert_no_dedup (m : Cached) (id : ℕ) (pos : V3f) :
    ((SpatialMap.insert id pos (SpatialMap.insert id pos m)).filter
        (fun e => decide (e = (SpatialKey.fromWorld pos, id)))).length
      = (m.filter (fun e => decide (e = (SpatialKey.fromWorld pos, id)))).length + 2 := by
  rw [SpatialMap.insert, SpatialMap.insert, List.append_assoc, List.filter_append,
    List.length_append]
  simp

/-- C6, counterexample. The claim asserts that `clearIf` with the
always-true predicate (run with no active query) produces the empty
manager and that afterwards no `cached` entry refers to an id absent from
the store. On a manager holding one object with id 1, `clearIf(true)`
empties the store but leaves the spatial entry for id 1 in place. -/
theorem C6_clearIf_counterexample :
    (clearIf (fun _ _ => true) ⟨[(1, ⟨1, ⟨2, 2, 2⟩⟩)], [(⟨0, 0, 0⟩, 1)]⟩).objects = [] ∧
    (clearIf (fun _ _ => true) ⟨[(1, ⟨1, ⟨2, 2, 2⟩⟩)], [(⟨0, 0, 0⟩, 1)]⟩).cached ≠ [] := by
  decide

/-- C6, amended. `clearIf(p)` removes from the object store exactly the
objects satisfying `p` (given pairwise-distinct store keys, which the
free-id precondition of `put` guarantees), and leaves the spatial map
untouched: entries for the removed ids stay behind as stale entries, to be
healed only by later queries, and `clearIf(true)` empties the store but
not the spatial map. -/
theorem C6_clearIf_amended (p : ServerActiveObject → ℕ → Bool) (st : MgrState)
    (h : List.Pairwise (fun a b => a.1 ≠ b.1) st.objects) :
    clearIf p st
      = { objects := st.objects.filter (fun e => !(p e.2 e.1)), cached := st.cached } := by
  rw [clearIf]
  have hfold := clearIf_foldl p st.objects [] (by simpa using h)
  rw [List.nil_append] at hfold
  rw [hfold, List.nil_append]

/-- C6, witness for the amended theorem on a two-object manager whose
predicate selects only id 1. -/
theorem C6_clearIf_amended_witness :
    clearIf (fun _ id => decide (id = 1))
        ⟨[(1, ⟨1, ⟨2, 2, 2⟩⟩), (2, ⟨2, ⟨17, 2, 2⟩⟩)], [(⟨0, 0, 0⟩, 1), (⟨1, 0, 0⟩, 2)]⟩
      = ⟨[(2, ⟨2, ⟨17, 2, 2⟩⟩)], [(⟨0, 0, 0⟩, 1), (⟨1, 0, 0⟩, 2)]⟩ :=
  (C6_clearIf_amended (fun _ id => decide (id = 1))
      ⟨[(1, ⟨1, ⟨2, 2, 2⟩⟩), (2, ⟨2, ⟨17, 2, 2⟩⟩)], [(⟨0, 0, 0⟩, 1), (⟨1, 0, 0⟩, 2)]⟩
      (by decide)).trans (by decide)

/-- C5, confirmed. `registerObject` returns `false` exactly when the id
is 0 with an exhausted allocator, or the supplied non-zero id is not
free, or the position is over the world limit; a `false` return leaves
the manager untouched, and a `true` return files the object (under the
assigned id) in both the store and the spatial map. -/
theorem C5_registerObject (lim : V3f → Bool) (obj : ServerActiveObject) (st : MgrState) :
    ((registerObject lim obj st).1 = false ↔
      (obj.id = 0 ∧ getFreeId st.objects = 0) ∨
      (obj.id ≠ 0 ∧ isFreeId obj.id st.objects = false) ∨
      lim obj.pos = true) ∧
    ((registerObject lim obj st).1 = false → (registerObject lim obj st).2 = st) ∧
    ((registerObject lim obj st).1 = true →
      (registerObject lim obj st).2 =
        { objects := st.objects ++
            [(regAssignedId obj st, { obj with id := regAssignedId obj st })],
          cached := SpatialMap.insert (regAssignedId obj st) obj.pos st.cached }) := by
  simp only [registerObject, regAssignedId]
  by_cases h1 : obj.id = 0 ∧ getFreeId st.objects = 0
  · rw [if_pos h1]
    refine ⟨?_, fun _ => rfl, fun hc => absurd hc (by simp)⟩
    simp [h1]
  · rw [if_neg h1]
    by_cases h2 : isFreeId (if obj.id = 0 then getFreeId st.objects else obj.id) st.objects
        = false
    · rw [if_pos h2]
      refine ⟨?_, fun _ => rfl, fun hc => absurd hc (by simp)⟩
      simp only [true_iff]
      by_cases hz : obj.id = 0
      · rw [hz] at h1
        have hg : getFreeId st.objects ≠ 0 := fun hg0 => h1 ⟨rfl, hg0⟩
        rw [if_pos hz] at h2
        exact absurd (getFreeId_free hg) (by simp [h2])
      · rw [if_neg hz] at h2
        exact Or.inr (Or.inl ⟨hz, h2⟩)
    · rw [if_neg h2]
      by_cases h3 : lim obj.pos
      · rw [if_pos h3]
        refine ⟨?_, fun _ => rfl, fun hc => absurd hc (by simp)⟩
        simp [h3]
      · rw [if_neg h3]
        refine ⟨?_, fun hc => absurd hc (by simp), fun _ => rfl⟩
        simp only [Bool.true_eq_false, false_iff]
        rintro (hA | hB | hC)
        · exact h1 hA
        · rw [if_neg hB.1] at h2
          exact h2 hB.2
        · exact h3 (by simp [hC])

/-- C5, witness: registering an object with the fresh non-zero id 5 on
the empty manager succeeds and files it in both structures. -/
theorem C5_registerObject_witness :
    (registerObject (fun _ => false) ⟨5, ⟨1, 2, 3⟩⟩ ⟨[], []⟩).2
      = { objects := [(5, ⟨5, ⟨1, 2, 3⟩⟩)], cached := [(⟨0, 0, 0⟩, 5)] } :=
  ((C5_registerObject (fun _ => false) ⟨5, ⟨1, 2, 3⟩⟩ ⟨[], []⟩).2.2 (by decide)).trans
    (by decide)

/-- C9, counterexample. The claim asserts the radius query walks the cell
range whenever `N ≤ M + 100`. With one far-away entry (`M = 1`) and the
sphere bounding box of radius 16 around the origin (`N = 8`, so
`N ≤ M + 100` but `N > M`), the source's candidate generation takes the
linear-scan branch and emits the far id, while the claimed strategy would
walk the (empty) cell range and emit nothing. -/
theorem C9_adaptive_counterexample :
    cellCount (sphereBounds ⟨0, 0, 0⟩ 16) ≤ ([(⟨100, 100, 100⟩, 7)] : Cached).length + 100 ∧
    getRelevantObjectIds (sphereBounds ⟨0, 0, 0⟩ 16) [(⟨100, 100, 100⟩, 7)] = [7] ∧
    specRadiusRelevantIds (sphereBounds ⟨0, 0, 0⟩ 16) [(⟨100, 100, 100⟩, 7)] = [] := by
  decide

/-- C9, amended. Both queries use the same crossover with no slack:
candidate generation walks the cell range exactly when `N ≤ M` — emitting,
up to order, precisely the entries whose cell lies in the walked range —
and otherwise scans `cached` linearly emitting every id; the radius query
delegates to the very same `getRelevantObjectIds` over the sphere's
bounding box. -/
theorem C9_adaptive_amended (box : Aabb3f) (m : Cached) :
    (cellCount box ≤ m.length →
      (getRelevantObjectIds box m).Perm
        ((m.filter (fun e => inCellRange (minCell box) (maxCell box) e.1)).map
          (fun e => e.2))) ∧
    (m ≠ [] → m.length < cellCount box → getRelevantObjectIds box m = m.map (fun e => e.2)) ∧
    (∀ (c : V3f) (r : ℤ) (cb : ServerActiveObject → MgrState → Bool × MgrState)
        (st : MgrState),
      getObjectsInsideRadius c r cb st
        = getRelevantObjectIdsM (sphereBounds c r) (radiusStep c r cb) st) := by
  refine ⟨?_, ?_, fun _ _ _ _ => rfl⟩
  · intro hle
    rcases m with _ | ⟨e, t⟩
    · simp [getRelevantObjectIds]
    · rw [getRelevantObjectIds]
      rw [if_neg (by simp), if_pos hle]
      exact cellWalkIds_perm _ _ _
  · intro hne hlt
    rcases m with _ | ⟨e, t⟩
    · exact absurd rfl hne
    · rw [getRelevantObjectIds]
      rw [if_neg (by simp), if_neg (by omega)]

/-- C9, witness for the amended theorem: a one-entry map and a one-cell
box take the cell walk, which emits exactly the in-range entry. -/
theorem C9_adaptive_amended_witness :
    (getRelevantObjectIds ⟨⟨0, 0, 0⟩, ⟨2, 2, 2⟩⟩ [(⟨0, 0, 0⟩, 4)]).Perm
      ((([(⟨0, 0, 0⟩, 4)] : Cached).filter
          (fun e => inCellRange (minCell ⟨⟨0, 0, 0⟩, ⟨2, 2, 2⟩⟩)
            (maxCell ⟨⟨0, 0, 0⟩, ⟨2, 2, 2⟩⟩) e.1)).map (fun e => e.2)) :=
  (C9_adaptive_amended ⟨⟨0, 0, 0⟩, ⟨2, 2, 2⟩⟩ [(⟨0, 0, 0⟩, 4)]).1 (by decide)

theorem walkIds_cons (f : ℕ → TravState → TravState) (i : ℕ) (is : List ℕ) (p : TravState) :
    walkIds f (i :: is) p = walkIds f is (f i p) := rfl

theorem walkCells_cons (f : ℕ → TravState → TravState) (k : SpatialKey)
    (ks : List SpatialKey) (p : TravState) :
    walkCells f (k :: ks) p
      = walkCells f ks
          (walkIds f ((p.1.cached.filter (fun e => decide (e.1 = k))).map (fun e => e.2)) p) :=
  rfl

theorem walkCellsFrozen_cons (f : ℕ → TravState → TravState) (c0 : Cached) (k : SpatialKey)
    (ks : List SpatialKey) (p : TravState) :
    walkCellsFrozen f c0 (k :: ks) p
      = walkCellsFrozen f c0 ks
          (walkIds f ((c0.filter (fun e => decide (e.1 = k))).map (fun e => e.2)) p) :=
  rfl

/-- When the callback leaves the manager state fixed at `st` on every
candidate id, the id fold leaves the state component at `st`. -/
theorem walkIds_fst (f : ℕ → TravState → TravState) (st : MgrState) :
    ∀ (ids : List ℕ) (acc : List ServerActiveObject),
      (∀ id ∈ ids, ∀ a2 : List ServerActiveObject, (f id (st, a2)).1 = st) →
      (walkIds f ids (st, acc)).1 = st := by
  intro ids
  induction ids with
  | nil => intro acc _; rfl
  | cons i is ih =>
    intro acc H
    rw [walkIds_cons]
    rcases hfi : f i (st, acc) with ⟨s2, a2⟩
    have hs2 : s2 = st := by
      have hf := H i (List.mem_cons_self _ _) acc
      rw [hfi] at hf
      exact hf
    subst hs2
    exact ih a2 (fun id hid => H id (List.mem_cons_of_mem _ hid))

/-- When the callback leaves the manager state fixed at `st` on every id
of `st.cached`, the live cell-walk coincides with the claimed frozen
observation of `cached` and leaves the state at `st`. -/
theorem walkCells_frozen (f : ℕ → TravState → TravState) (st : MgrState)
    (H : ∀ id ∈ st.cached.map (fun e => e.2), ∀ a2 : List ServerActiveObject,
      (f id (st, a2)).1 = st) :
    ∀ (cells : List SpatialKey) (acc : List ServerActiveObject),
      walkCells f cells (st, acc) = walkCellsFrozen f st.cached cells (st, acc) ∧
      (walkCells f cells (st, acc)).1 = st := by
  intro cells
  induction cells with
  | nil => intro acc; exact ⟨rfl, rfl⟩
  | cons k ks ih =>
    intro acc
    have Hk : ∀ id ∈ ((st.cached.filter (fun e => decide (e.1 = k))).map (fun e => e.2)),
        ∀ a2 : List ServerActiveObject, (f id (st, a2)).1 = st := by
      intro id hid
      rw [List.mem_map] at hid
      obtain ⟨e, he, rfl⟩ := hid
      exact H e.2 (List.mem_map_of_mem _ (List.mem_of_mem_filter he))
    rw [walkCells_cons, walkCellsFrozen_cons]
    dsimp only
    rcases hw : walkIds f ((st.cached.filter (fun e => decide (e.1 = k))).map (fun e => e.2))
        (st, acc) with ⟨s2, a2⟩
    have hs2 : s2 = st := by
      have h1 := walkIds_fst f st _ acc Hk
      rw [hw] at h1
      exact h1
    subst hs2
    rw [hw]
    exact ih a2

/-- C3, counterexample. The claim asserts that callbacks observe `cached`
as frozen and that mutations are deferred to the end of the traversal. On
a two-object manager, a query whose callback registers a new object in a
later cell of the walked range sees that object emitted by the same
traversal (result ids 1 and 2), whereas under the claimed frozen
observation the traversal yields only object 1. -/
theorem C3_deferral_counterexample :
    (getObjectsInArea ⟨⟨0, 0, 0⟩, ⟨18, 2, 2⟩⟩ cbRegisterOnOne
        ⟨[(1, ⟨1, ⟨2, 2, 2⟩⟩), (3, ⟨3, ⟨2, 3, 2⟩⟩)], [(⟨0, 0, 0⟩, 1), (⟨0, 0, 0⟩, 3)]⟩).2
      = [⟨1, ⟨2, 2, 2⟩⟩, ⟨2, ⟨17, 2, 2⟩⟩] ∧
    (specFrozenObjectsInArea ⟨⟨0, 0, 0⟩, ⟨18, 2, 2⟩⟩ cbRegisterOnOne
        ⟨[(1, ⟨1, ⟨2, 2, 2⟩⟩), (3, ⟨3, ⟨2, 3, 2⟩⟩)], [(⟨0, 0, 0⟩, 1), (⟨0, 0, 0⟩, 3)]⟩).2
      = [⟨1, ⟨2, 2, 2⟩⟩] := by
  decide

/-- C3, amended. The SpatialMap has no deferral machinery: a mutation
requested by a callback is applied to the live `cached` at once and the
cell-walk reads the live `cached`, so the remainder of the same traversal
can observe it (see the counterexample); a traversal of a consistent
manager whose callbacks do not mutate coincides with the frozen
observation and returns the manager unchanged. -/
theorem C3_deferral_amended (box : Aabb3f) (p : ServerActiveObject → Bool) (st : MgrState)
    (h : Consistent st) :
    getObjectsInArea box (liftPure p) st = specFrozenObjectsInArea box (liftPure p) st ∧
    (getObjectsInArea box (liftPure p) st).1 = st := by
  have H : ∀ id ∈ st.cached.map (fun e => e.2), ∀ a2 : List ServerActiveObject,
      (areaStep box (liftPure p) id (st, a2)).1 = st := by
    intro id hid a2
    rw [List.mem_map] at hid
    obtain ⟨e, he, rfl⟩ := hid
    have hs := h e he
    cases hget : storeGet e.2 st.objects with
    | none => rw [hget] at hs; simp at hs
    | some obj =>
      simp only [areaStep, hget, liftPure]
      split
      · rfl
      · rfl
  rw [getObjectsInArea, specFrozenObjectsInArea, getRelevantObjectIdsM, specFrozenRelevantM]
  by_cases hemp : st.cached.isEmpty
  · rw [if_pos hemp, if_pos hemp]
    exact ⟨rfl, rfl⟩
  · rw [if_neg hemp, if_neg hemp]
    by_cases hcnt : cellCount box ≤ st.cached.length
    · rw [if_pos hcnt, if_pos hcnt]
      exact walkCells_frozen _ st H _ []
    · rw [if_neg hcnt, if_neg hcnt]
      exact ⟨rfl, walkIds_fst _ st _ [] H⟩

/-- C3, witness for the amended theorem on a consistent one-object
manager with the include-all predicate. -/
theorem C3_deferral_amended_witness :
    (getObjectsInArea ⟨⟨0, 0, 0⟩, ⟨2, 2, 2⟩⟩ (liftPure (fun _ => true))
        ⟨[(1, ⟨1, ⟨2, 2, 2⟩⟩)], [(⟨0, 0, 0⟩, 1)]⟩).1
      = ⟨[(1, ⟨1, ⟨2, 2, 2⟩⟩)], [(⟨0, 0, 0⟩, 1)]⟩ :=
  (C3_deferral_amended ⟨⟨0, 0, 0⟩, ⟨2, 2, 2⟩⟩ (fun _ => true)
      ⟨[(1, ⟨1, ⟨2, 2, 2⟩⟩)], [(⟨0, 0, 0⟩, 1)]⟩
      (by
        show ∀ e ∈ ([(⟨0, 0, 0⟩, 1)] : Cached),
          (storeGet e.2 [(1, ⟨1, ⟨2, 2, 2⟩⟩)]).isSome = true
        decide)).2

/-- C8, counterexample. The claim asserts the self-heal
`SpatialMap.remove(id)` is deferred while the traversal is active. With
stale id 5 next to live id 9 in cell `(0,0,0)` and a box whose walk
covers two cells, the full query equals the walk of that two-cell list,
yet already after the first walked cell the live `cached` differs from
the state at query entry: the heal is applied mid-traversal, not
deferred. -/
theorem C8_stale_heal_counterexample :
    cellList (minCell ⟨⟨0, 0, 0⟩, ⟨18, 2, 2⟩⟩) (maxCell ⟨⟨0, 0, 0⟩, ⟨18, 2, 2⟩⟩)
      = [⟨0, 0, 0⟩, ⟨1, 0, 0⟩] ∧
    getObjectsInArea ⟨⟨0, 0, 0⟩, ⟨18, 2, 2⟩⟩ cbTrue
        ⟨[(9, ⟨9, ⟨3, 2, 2⟩⟩)], [(⟨0, 0, 0⟩, 5), (⟨0, 0, 0⟩, 9)]⟩
      = walkCells (areaStep ⟨⟨0, 0, 0⟩, ⟨18, 2, 2⟩⟩ cbTrue) [⟨0, 0, 0⟩, ⟨1, 0, 0⟩]
          (⟨[(9, ⟨9, ⟨3, 2, 2⟩⟩)], [(⟨0, 0, 0⟩, 5), (⟨0, 0, 0⟩, 9)]⟩, []) ∧
    (walkCells (areaStep ⟨⟨0, 0, 0⟩, ⟨18, 2, 2⟩⟩ cbTrue) [⟨0, 0, 0⟩]
        (⟨[(9, ⟨9, ⟨3, 2, 2⟩⟩)], [(⟨0, 0, 0⟩, 5), (⟨0, 0, 0⟩, 9)]⟩, [])).1.cached
      ≠ [(⟨0, 0, 0⟩, 5), (⟨0, 0, 0⟩, 9)] := by
  decide

/-- A property of the traversal state preserved by every callback step is
preserved by the id fold. -/
theorem walkIds_preserve (f : ℕ → TravState → TravState) (P : TravState → Prop)
    (hf : ∀ (id : ℕ) (q : TravState), P q → P (f id q)) :
    ∀ (ids : List ℕ) (q : TravState), P q → P (walkIds f ids q) := by
  intro ids
  induction ids with
  | nil =>
    intro q hq
    exact hq
  | cons i is ih =>
    intro q hq
    rw [walkIds_cons]
    exact ih _ (hf i q hq)

/-- A property of the traversal state preserved by every callback step is
preserved by the cell walk, whatever cells it visits and whatever
candidates the live buckets yield. -/
theorem walkCells_preserve (f : ℕ → TravState → TravState) (P : TravState → Prop)
    (hf : ∀ (id : ℕ) (q : TravState), P q → P (f id q)) :
    ∀ (cells : List SpatialKey) (q : TravState), P q → P (walkCells f cells q) := by
  intro cells
  induction cells with
  | nil =>
    intro q hq
    exact hq
  | cons k ks ih =>
    intro q hq
    rw [walkCells_cons]
    exact ih _ (walkIds_preserve f P hf _ q hq)

/-- C8, amended. For every query traversal that yields an id absent from
the object store: the yielding step of the box query and of the radius
query — whatever the box, the callback, the manager state and the result
accumulated so far — does not emit the id and applies
`SpatialMap.remove(id)` to the live `cached` immediately (there is no
deferral machinery); that removal erases exactly the first entry carrying
the id; and a whole box traversal, over any box, include predicate and
state, never modifies the store and only ever emits objects that resolve
in the store, so a stale id is never emitted to the caller's result. -/
theorem C8_stale_heal_amended :
    (∀ (box : Aabb3f) (cb : ServerActiveObject → MgrState → Bool × MgrState) (id : ℕ)
        (st : MgrState) (acc : List ServerActiveObject),
      storeGet id st.objects = none →
        areaStep box cb id (st, acc)
          = ({ st with cached := SpatialMap.removeById id st.cached }, acc)) ∧
    (∀ (c : V3f) (r : ℤ) (cb : ServerActiveObject → MgrState → Bool × MgrState) (id : ℕ)
        (st : MgrState) (acc : List ServerActiveObject),
      storeGet id st.objects = none →
        radiusStep c r cb id (st, acc)
          = ({ st with cached := SpatialMap.removeById id st.cached }, acc)) ∧
    (∀ (m1 m2 : Cached) (k : SpatialKey) (id : ℕ),
      (∀ e ∈ m1, e.2 ≠ id) →
        SpatialMap.removeById id (m1 ++ (k, id) :: m2) = m1 ++ m2) ∧
    (∀ (box : Aabb3f) (p : ServerActiveObject → Bool) (st : MgrState),
      (getObjectsInArea box (liftPure p) st).1.objects = st.objects ∧
      ∀ o ∈ (getObjectsInArea box (liftPure p) st).2,
        ∃ i : ℕ, storeGet i st.objects = some o) := by
  refine ⟨?_, ?_, ?_, ?_⟩
  · intro box cb id st acc h
    simp only [areaStep, h]
  · intro c r cb id st acc h
    simp only [radiusStep, h]
  · intro m1 m2 k id h1
    have hc : ∀ b ∈ m1, ¬((fun e => decide (e.2 = id)) b = true) := by
      intro b hb
      simp [h1 b hb]
    have herase : List.eraseP (fun e => decide (e.2 = id)) ((k, id) :: m2) = m2 :=
      List.eraseP_cons_of_pos (by simp)
    rw [SpatialMap.removeById, List.eraseP_append_right _ hc, herase]
  · intro box p st
    have hstep : ∀ (id : ℕ) (q : TravState),
        (q.1.objects = st.objects ∧ ∀ o ∈ q.2, ∃ i : ℕ, storeGet i st.objects = some o) →
        ((areaStep box (liftPure p) id q).1.objects = st.objects ∧
          ∀ o ∈ (areaStep box (liftPure p) id q).2,
            ∃ i : ℕ, storeGet i st.objects = some o) := by
      intro id q hq
      cases hget : storeGet id q.1.objects with
      | none =>
        simp only [areaStep, hget]
        exact hq
      | some obj =>
        rw [hq.1] at hget
        simp only [areaStep, hq.1, hget, liftPure]
        by_cases hbox : Aabb3f.contains box obj.pos = true
        · rw [if_pos hbox]
          dsimp only
          refine ⟨hq.1, ?_⟩
          intro o ho
          by_cases hp : p obj = true
          · rw [if_pos hp] at ho
            rcases List.mem_append.1 ho with h1 | h2
            · exact hq.2 o h1
            · rw [List.mem_singleton] at h2
              subst h2
              exact ⟨id, hget⟩
          · rw [if_neg hp] at ho
            exact hq.2 o ho
        · rw [if_neg hbox]
          exact hq
    have hinit : ((st, ([] : List ServerActiveObject)) : TravState).1.objects = st.objects ∧
        ∀ o ∈ ((st, ([] : List ServerActiveObject)) : TravState).2,
          ∃ i : ℕ, storeGet i st.objects = some o := ⟨rfl, by simp⟩
    rw [getObjectsInArea, getRelevantObjectIdsM]
    by_cases hemp : st.cached.isEmpty
    · rw [if_pos hemp]
      exact hinit
    · rw [if_neg hemp]
      by_cases hcnt : cellCount box ≤ st.cached.length
      · rw [if_pos hcnt]
        exact walkCells_preserve _ _ hstep _ _ hinit
      · rw [if_neg hcnt]
        exact walkIds_preserve _ _ hstep _ _ hinit

/-- C8, witness for the amended theorem: yielding stale id 5 — sitting
between a live entry and a second stale entry — heals the first entry
carrying id 5 from the live `cached` at once and emits nothing. -/
theorem C8_stale_heal_amended_witness :
    areaStep ⟨⟨0, 0, 0⟩, ⟨18, 2, 2⟩⟩ cbTrue 5
        (⟨[(9, ⟨9, ⟨3, 2, 2⟩⟩)], [(⟨1, 0, 0⟩, 9), (⟨0, 0, 0⟩, 5), (⟨2, 0, 0⟩, 5)]⟩, [])
      = (⟨[(9, ⟨9, ⟨3, 2, 2⟩⟩)], [(⟨1, 0, 0⟩, 9), (⟨2, 0, 0⟩, 5)]⟩, []) ∧
    SpatialMap.removeById 5 ([(⟨1, 0, 0⟩, 9)] ++ (⟨0, 0, 0⟩, 5) :: [(⟨2, 0, 0⟩, 5)])
      = [(⟨1, 0, 0⟩, 9)] ++ [(⟨2, 0, 0⟩, 5)] :=
  ⟨(C8_stale_heal_amended.1 ⟨⟨0, 0, 0⟩, ⟨18, 2, 2⟩⟩ cbTrue 5
      ⟨[(9, ⟨9, ⟨3, 2, 2⟩⟩)], [(⟨1, 0, 0⟩, 9), (⟨0, 0, 0⟩, 5), (⟨2, 0, 0⟩, 5)]⟩ []
      (by decide)).trans (by decide),
   C8_stale_heal_amended.2.2.1 [(⟨1, 0, 0⟩, 9)] [(⟨2, 0, 0⟩, 5)] ⟨0, 0, 0⟩ 5
      (by decide)⟩

/-- C2, failing evaluation (the claim is right; the code misses objects).
Register one object at `(2,2,2)` — filing it in cell `(0,0,0)` — and query
the box from `(1,1,1)` to `(20,20,20)` with no predicate: the box
contains the object's position, but `absoluteRoundUp` turns the positive
min corner into cell `(1,1,1)` (rounding away from zero, i.e. inward), so
the one-cell-per-axis walk starts past the object's cell and the query
returns the empty result. -/
theorem C2_area_query_misses_object :
    (registerObject (fun _ => false) ⟨1, ⟨2, 2, 2⟩⟩ ⟨[], []⟩).1 = true ∧
    Aabb3f.contains ⟨⟨1, 1, 1⟩, ⟨20, 20, 20⟩⟩ ⟨2, 2, 2⟩ = true ∧
    (getObjectsInArea ⟨⟨1, 1, 1⟩, ⟨20, 20, 20⟩⟩ cbTrue
        (registerObject (fun _ => false) ⟨1, ⟨2, 2, 2⟩⟩ ⟨[], []⟩).2).2 = [] := by
  decide

/-- C1, failing evaluation (the claim is right; the code crashes). The
source of `removeObject` reads
`m_active_objects.get(id).get()->getBasePosition()` before any presence
check, so for an id absent from the store it dereferences a null handle
(modeled as `none`) instead of the claimed logged no-op; a present id is
removed from both structures normally. -/
theorem C1_removeObject_unknown_crash :
    removeObject 7 ⟨[], []⟩ = none ∧
    removeObject 1 ⟨[(1, ⟨1, ⟨2, 2, 2⟩⟩)], [(⟨0, 0, 0⟩, 1)]⟩ = some ⟨[], []⟩ := by
  decide

end server
